import Mathlib

/-!
Verification of the Atlas temporal contact reconciliation engine.

The development shallowly embeds the core of the repository:

* `src/services/BirthdayReminderService.ts` — the birthday query calculator
  (`getBirthdayReport`, `getMonthlyBirthdays`, `getUpcomingBirthdays`,
  `filterAndMapBirthdays`) and the Slack report formatter
  (`formatBirthdayMessageForSlack`, `getMessageConfig`);
* the JSON/Notion synchronisation code (`syncPeopleFromJson`,
  `ProfileUpdateService.syncProfilesFromNotion` / `upsertPerson`);
* the `People` model's `yearMet` validation range.

JavaScript `Date` values are embedded as calendar dates (`MDDate`) plus an
explicit `invalid` constructor for JavaScript's Invalid Date
(`JSDate`).  The query filters only inspect the UTC month/day pair of a
stored date (via `toISOString().substring(5, 10)`), so the "MM-DD" string
is represented by its `(month, day)` pair of numbers: `padStart(2, "0")`
encoding is injective for components below 100, which every parseable
calendar date satisfies.  `toISOString` throws a `RangeError` on an
Invalid Date; this is embedded as `Except Unit`.

One place reads a stored date through local time instead: the month
report's sort comparator calls `birthday.getDate()`.  The runtime
timezone is pinned to `America/Los_Angeles` (`process.env.TZ` in
`src/index.ts`, `ENV TZ` in the Dockerfile), and a birthday parsed from
a "YYYY-MM-DD" string is a UTC-midnight instant, which is 16:00 or
17:00 of the *previous* day in Los Angeles; `getDate()` therefore
returns the previous calendar day's day-of-month, embedded below via
`prevCalendarDay`.
-/

namespace Atlas

/-- A calendar date as stored: the UTC year, month (1..12) and
day-of-month (1..31) fields of the stored value. -/
structure MDDate where
  year : Int
  month : Nat
  day : Nat
deriving DecidableEq, Repr

/-- A calendar date that an actual JavaScript `Date` can carry:
month between 1 and 12, day between 1 and 31. -/
def MDDate.Valid (d : MDDate) : Prop :=
  1 ≤ d.month ∧ d.month ≤ 12 ∧ 1 ≤ d.day ∧ d.day ≤ 31

instance (d : MDDate) : Decidable d.Valid := by
  unfold MDDate.Valid; infer_instance

/-- A JavaScript `Date` value: either a real calendar date or the
Invalid Date produced by `new Date(<unparseable>)`. -/
inductive JSDate where
  | valid (d : MDDate)
  | invalid
deriving DecidableEq, Repr

/-- The `toISOString().substring(5, 10)` "MM-DD" key of a stored date,
represented by its `(month, day)` pair.  On an Invalid Date,
`toISOString` throws a `RangeError`. -/
def JSDate.toMMDD : JSDate → Except Unit (Nat × Nat)
  | JSDate.valid d => Except.ok (d.month, d.day)
  | JSDate.invalid => Except.error ()

/-- A row of the `People` table (`PeopleAttributes` in
`types/models/PeopleInterface.ts`). -/
structure Person where
  id : Int
  name : String
  active : Bool
  birthday : Option JSDate
  yearMet : Int
  phoneNumber : String
  email : Option String
  location : Option (List String)
  affiliation : Option (List String)
  lastContacted : Int
  contactFrequency : Int
  chatReminder : Int
deriving DecidableEq, Repr

/-- The contact's stored birthday, when present, parses to a valid
calendar date (it is not an Invalid Date). -/
def ValidBday (p : Person) : Prop :=
  match p.birthday with
  | none => True
  | some (JSDate.valid d) => d.Valid
  | some JSDate.invalid => False

instance (p : Person) : Decidable (ValidBday p) := by
  unfold ValidBday
  match p.birthday with
  | none => exact inferInstance
  | some (JSDate.valid _) => exact inferInstance
  | some JSDate.invalid => exact inferInstance

/-- The `BirthdayReport` shape (`types/services/BirthdayReminder.ts`). -/
structure BirthdayReport where
  name : String
  yearsInContact : Int
  birthday : Option JSDate
deriving DecidableEq, Repr

/-- The report built for one person by the `.map` step of
`filterAndMapBirthdays`: `today.getFullYear() - person.yearMet`, with the
person's stored birthday carried along for display. -/
def mkReport (today : MDDate) (p : Person) : BirthdayReport :=
  { name := p.name
    yearsInContact := today.year - p.yearMet
    birthday := p.birthday }

/-- Embedding of `filterAndMapBirthdays(people, condition)`: keep the people whose
birthday is present and whose "MM-DD" key satisfies `cond`, then map each
to a report.  A present but unparseable birthday makes
`toISOString` throw, which surfaces as `Except.error`. -/
def filterAndMapBirthdays (people : List Person) (cond : Nat × Nat → Bool)
    (today : MDDate) : Except Unit (List BirthdayReport) :=
  match people with
  | [] => Except.ok []
  | p :: rest =>
    match p.birthday with
    | none => filterAndMapBirthdays rest cond today
    | some JSDate.invalid => Except.error ()
    | some (JSDate.valid d) =>
      match filterAndMapBirthdays rest cond today with
      | Except.error e => Except.error e
      | Except.ok rs =>
        Except.ok (if cond (d.month, d.day) then mkReport today p :: rs else rs)

/-- The specification-side view of a successful query: the people whose
birthday is a valid date satisfying `q`, mapped to reports in order. -/
def selectReports (people : List Person) (today : MDDate)
    (q : MDDate → Bool) : List BirthdayReport :=
  people.filterMap (fun p =>
    match p.birthday with
    | some (JSDate.valid d) => if q d then some (mkReport today p) else none
    | _ => none)

/-- Embedding of `getBirthdayReport(people)` — today's birthdays: strict equality of
the stored "MM-DD" key with today's local "MM-DD" key. -/
def getBirthdayReport (people : List Person) (today : MDDate) :
    Except Unit (List BirthdayReport) :=
  filterAndMapBirthdays people (fun md => md == (today.month, today.day)) today

/-- The Gregorian leap-year rule, as implemented by JavaScript `Date`. -/
def isLeapYear (y : Int) : Prop :=
  (y % 4 = 0 ∧ y % 100 ≠ 0) ∨ y % 400 = 0

instance (y : Int) : Decidable (isLeapYear y) := by
  unfold isLeapYear; infer_instance

/-- The number of days of a month in a given year. -/
def daysInMonth (y : Int) (m : Nat) : Nat :=
  if m = 2 then (if isLeapYear y then 29 else 28)
  else if m = 4 ∨ m = 6 ∨ m = 9 ∨ m = 11 then 30
  else 31

/-- The calendar day before a stored date. -/
def prevCalendarDay (d : MDDate) : MDDate :=
  if 2 ≤ d.day then ⟨d.year, d.month, d.day - 1⟩
  else if d.month = 1 then ⟨d.year - 1, 12, 31⟩
  else ⟨d.year, d.month - 1, daysInMonth d.year (d.month - 1)⟩

/-- The `getDate()` value of a report's stored birthday, as used by the
month-report sort comparator.  The stored value is a UTC-midnight
instant and the runtime timezone is pinned to `America/Los_Angeles`
(UTC-8/UTC-7), so midnight UTC falls on the previous local calendar day
and `getDate()` returns that previous day's day-of-month.  (`getDate()`
on an Invalid Date is `NaN`; that case is unreachable in the pipeline
and is embedded as `0`.) -/
def jsDay : JSDate → Nat
  | JSDate.valid d => (prevCalendarDay d).day
  | JSDate.invalid => 0

/-- The sort comparator of `getMonthlyBirthdays` as a `Bool` relation:
`(a, b) => a.birthday.getDate() - b.birthday.getDate()` with a `0`
result when either birthday is missing. -/
def bdLe (a b : BirthdayReport) : Bool :=
  match a.birthday, b.birthday with
  | some x, some y => decide (jsDay x ≤ jsDay y)
  | _, _ => true

/-- Stable comparison sort, the embedding of `Array.prototype.sort`
with the day-of-month comparator: insert into the sorted tail. -/
def jsInsert (x : BirthdayReport) : List BirthdayReport → List BirthdayReport
  | [] => [x]
  | y :: ys => if bdLe x y then x :: y :: ys else y :: jsInsert x ys

/-- The embedding of the `reports.sort(...)` call. -/
def jsSortByDay : List BirthdayReport → List BirthdayReport
  | [] => []
  | x :: xs => jsInsert x (jsSortByDay xs)

/-- Embedding of `getMonthlyBirthdays(people)` — birthdays in today's month, sorted
ascending by day of month. -/
def getMonthlyBirthdays (people : List Person) (today : MDDate) :
    Except Unit (List BirthdayReport) :=
  match filterAndMapBirthdays people (fun md => md.1 == today.month) today with
  | Except.error e => Except.error e
  | Except.ok rs => Except.ok (jsSortByDay rs)

/-- Today's linear day ordinal `month * 100 + day`. -/
def todayNum (today : MDDate) : Nat :=
  today.month * 100 + today.day

/-- The candidate ordinal of a birthday: `month * 100 + day`, plus the
year-wraparound offset `1200` when it is strictly less than today's
ordinal. -/
def candidate (tn : Nat) (d : MDDate) : Nat :=
  if d.month * 100 + d.day < tn then d.month * 100 + d.day + 1200
  else d.month * 100 + d.day

/-- One step of the running-minimum loop of `getUpcomingBirthdays`
(`Infinity` is `none`). -/
def stepMin (acc : Option Nat) (c : Nat) : Option Nat :=
  match acc with
  | none => some c
  | some m => if c < m then some c else some m

/-- The running minimum over a list of candidate ordinals. -/
def foldMin (acc : Option Nat) (l : List Nat) : Option Nat :=
  l.foldl stepMin acc

/-- The `for` loop of `getUpcomingBirthdays`: skip people without a
birthday, let `toISOString` throw on an Invalid Date, and keep the
minimum candidate ordinal. -/
def upcomingScan (tn : Nat) : List Person → Option Nat → Except Unit (Option Nat)
  | [], acc => Except.ok acc
  | p :: rest, acc =>
    match p.birthday with
    | none => upcomingScan tn rest acc
    | some JSDate.invalid => Except.error ()
    | some (JSDate.valid d) => upcomingScan tn rest (stepMin acc (candidate tn d))

/-- The candidate ordinals of the contacts that have a parseable
birthday, in order. -/
def ordinalsOf (people : List Person) (tn : Nat) : List Nat :=
  people.filterMap (fun p =>
    match p.birthday with
    | some (JSDate.valid d) => some (candidate tn d)
    | _ => none)

/-- Embedding of `getUpcomingBirthdays(people)`: minimum candidate ordinal, normalised
back out of the wraparound range when `>= 1200 + 100`, re-encoded as an
"MM-DD" key and used to filter the contacts. -/
def getUpcomingBirthdays (people : List Person) (today : MDDate) :
    Except Unit (List BirthdayReport) :=
  match upcomingScan (todayNum today) people none with
  | Except.error e => Except.error e
  | Except.ok none => Except.ok []
  | Except.ok (some mn) =>
    let normalized := if 1200 + 100 ≤ mn then mn - 1200 else mn
    filterAndMapBirthdays people
      (fun md => md == (normalized / 100, normalized % 100)) today

/-- The report type accepted by `getBirthdayReports`. -/
inductive ReportType where
  | daily
  | monthly
  | upcoming
deriving DecidableEq, Repr

/-- Embedding of `getBirthdayReports(type)`: an empty contact collection returns an
empty report list before dispatching on the type. -/
def getBirthdayReports (t : ReportType) (people : List Person)
    (today : MDDate) : Except Unit (List BirthdayReport) :=
  if people.isEmpty then Except.ok []
  else
    match t with
    | ReportType.daily => getBirthdayReport people today
    | ReportType.monthly => getMonthlyBirthdays people today
    | ReportType.upcoming => getUpcomingBirthdays people today

/-! ## Report formatter (`formatBirthdayMessageForSlack`, `getMessageConfig`) -/

/-- The per-type message configuration returned by `getMessageConfig`. -/
structure MessageConfig where
  header : String
  sectionTitle : String
  emptyMessage : String
  callToAction : String
deriving DecidableEq, Repr

/-- Embedding of `getMessageConfig(type)` — header, section title, empty message and
call to action per report type. -/
def getMessageConfig : ReportType → MessageConfig
  | ReportType.daily =>
    { header := "*🎉 Daily Birthday Report 🎉*"
      sectionTitle := "Birthdays Today"
      emptyMessage := "*No birthdays today!* 🌟"
      callToAction := "*Don't forget to send your wishes!* 🎂" }
  | ReportType.monthly =>
    { header := "*📅 Monthly Birthday Report 📅*"
      sectionTitle := "Birthdays This Month"
      emptyMessage := "*No birthdays this month!* 📆"
      callToAction := "*Mark your calendars!* 🗓️" }
  | ReportType.upcoming =>
    { header := "*🔮 Next Upcoming Birthday 🔮*"
      sectionTitle := "Next Birthday"
      emptyMessage := "*No upcoming birthdays found!* 🤷‍♂️"
      callToAction := "*Get ready to celebrate!* 🎁" }

/-- The English month names used by `formatBirthdayDate`. -/
def monthNames : List String :=
  ["January", "February", "March", "April", "May", "June", "July",
   "August", "September", "October", "November", "December"]

/-- Embedding of `formatBirthdayDate(birthday)`: "`<Month> <day>`" from the stored ISO
date; the `try`/`catch` turns the `RangeError` of an Invalid Date into
"N/A". -/
def formatBirthdayDate : JSDate → String
  | JSDate.valid d => (monthNames.getD (d.month - 1) "undefined") ++ " " ++ toString d.day
  | JSDate.invalid => "N/A"

/-- The per-report line built inside `formatBirthdayMessageForSlack`. -/
def reportLine (idx : Nat) (r : BirthdayReport) : String :=
  let bdFormatted := match r.birthday with
    | some bd => formatBirthdayDate bd
    | none => "N/A"
  let yearsText :=
    if 0 < r.yearsInContact then
      " – Friends for " ++ toString r.yearsInContact ++ " years"
    else " – New connection this year"
  "> " ++ toString (idx + 1) ++ ". *" ++ r.name ++ "*" ++ yearsText ++
    " (Birthday: " ++ bdFormatted ++ ")"

/-- The indexed `reports.map((report, index) => ...)` step. -/
def reportLines : Nat → List BirthdayReport → List String
  | _, [] => []
  | i, r :: rs => reportLine i r :: reportLines (i + 1) rs

/-- The body part of the Slack message between the two timestamp
interpolations: empty message, or section title, numbered lines and call
to action. -/
def messageBody (reports : List BirthdayReport) (t : ReportType) : String :=
  let config := getMessageConfig t
  if reports.isEmpty then config.emptyMessage
  else
    "*" ++ config.sectionTitle ++ ":*\n" ++
      String.intercalate "\n" (reportLines 0 reports) ++ "\n\n" ++
      config.callToAction

/-- Embedding of `formatBirthdayMessageForSlack(reports, type)`.  The source samples
the clock internally — `const timestamp = format(new Date(), "PPpp")` —
so the sampled timestamp string is an explicit input of the embedding,
not a caller-facing parameter of the TypeScript function. -/
def formatBirthdayMessageForSlack (reports : List BirthdayReport)
    (t : ReportType) (timestamp : String) : String :=
  let config := getMessageConfig t
  config.header ++ "\n" ++ "*Report Generated:* " ++ timestamp ++ "\n\n" ++
    messageBody reports t ++
    "\n\n_Generated at: " ++ timestamp ++ "_"

/-! ## Reconciliation (`syncPeopleFromJson`, `syncProfilesFromNotion`) -/

/-- A `Profile` record of the JSON sync era: the fields read from
`Profiles.json` and written by `syncPeopleFromJson`. -/
structure Profile where
  firstName : String
  lastName : String
  birthday : Option JSDate
  yearMet : Int
  phoneNumber : String
  email : Option String
  location : Option String
deriving DecidableEq, Repr

/-- The operations performed by a sync run, in order, keyed by phone
number. -/
structure SyncLog where
  inserted : List String
  updated : List String
  deleted : List String
deriving DecidableEq, Repr

/-- Embedding of `People.findOne` by phone number — the first row with the
given phone number. -/
def findByPhone (db : List Profile) (phone : String) : Option Profile :=
  db.find? (fun r => r.phoneNumber == phone)

/-- Embedding of the `existingPerson.update` call (fields `firstName`,
`lastName`, `birthday`, `yearMet`, `email`, `location`): every field is overwritten from the external record
except the key, which is not in the update set. -/
def applyUpdate (old upd : Profile) : Profile :=
  { firstName := upd.firstName
    lastName := upd.lastName
    birthday := upd.birthday
    yearMet := upd.yearMet
    phoneNumber := old.phoneNumber
    email := upd.email
    location := upd.location }

/-- Replace the first row with the given phone number by the update. -/
def updateFirst (db : List Profile) (phone : String) (upd : Profile) :
    List Profile :=
  match db with
  | [] => []
  | r :: rest =>
    if r.phoneNumber == phone then applyUpdate r upd :: rest
    else r :: updateFirst rest phone upd

/-- The upsert loop of `syncPeopleFromJson` (steps 2–5): update the
existing record, or insert a new one at the end of the table.  Returns
the final table, the inserted keys and the updated keys in order. -/
def syncLoop (db : List Profile) :
    List Profile → List Profile × List String × List String
  | [] => (db, [], [])
  | p :: rest =>
    match findByPhone db p.phoneNumber with
    | some _ =>
      let r := syncLoop (updateFirst db p.phoneNumber p) rest
      (r.1, r.2.1, p.phoneNumber :: r.2.2)
    | none =>
      let r := syncLoop (db ++ [p]) rest
      (r.1, p.phoneNumber :: r.2.1, r.2.2)

/-- Embedding of `phoneNumbersInJson.includes(person.phoneNumber)`. -/
def hasPhone (phones : List String) (x : String) : Bool :=
  phones.any (fun s => s == x)

/-- The delete loop of `syncPeopleFromJson` (step 6): iterate the table
snapshot taken after the upsert loop, and destroy every row whose phone
number is absent from the JSON file. -/
def deleteLoop (snapshot : List Profile) (phones : List String)
    (db : List Profile) : List Profile × List String :=
  match snapshot with
  | [] => (db, [])
  | r :: rest =>
    if hasPhone phones r.phoneNumber then deleteLoop rest phones db
    else
      let db2 := db.filter (fun x => ¬ (x.phoneNumber == r.phoneNumber))
      let res := deleteLoop rest phones db2
      (res.1, r.phoneNumber :: res.2)

/-- Embedding of `syncPeopleFromJson()`: upsert every profile of the JSON file into
the table, then delete the rows whose phone number is not in the file.
The table (the storage collaborator's state) is passed explicitly. -/
def syncPeopleFromJson (db : List Profile) (profiles : List Profile) :
    List Profile × SyncLog :=
  let phones := profiles.map Profile.phoneNumber
  let r1 := syncLoop db profiles
  let r2 := deleteLoop r1.1 phones r1.1
  (r2.1, { inserted := r1.2.1, updated := r1.2.2, deleted := r2.2 })

/-- The upsert loop of `ProfileUpdateService.syncProfilesFromNotion`,
with the storage collaborator's per-record failures as an oracle on the
natural key.  `upsertPerson` logs a failure and rethrows, and the
surrounding `try`/`catch` rethrows too, so the first failing record ends
the loop: the keys upserted before it are returned together with the
propagated error. -/
def notionSyncLoop (failing : String → Bool) :
    List Profile → List String × Except Unit Unit
  | [] => ([], Except.ok ())
  | a :: rest =>
    if failing a.phoneNumber then ([], Except.error ())
    else
      let r := notionSyncLoop failing rest
      (a.phoneNumber :: r.1, r.2)

/-- The annual-range validation of `yearMet` in `People.init`:
`validate: { min: 2002, max: 3100 }`. -/
def yearMetValid (y : Int) : Prop :=
  2002 ≤ y ∧ y ≤ 3100

instance (y : Int) : Decidable (yearMetValid y) := by
  unfold yearMetValid; infer_instance

/-! ## Shared lemmas about the query pipeline -/

/-- On a collection whose birthdays all parse, `filterAndMapBirthdays`
succeeds and returns exactly the `selectReports` selection for the
condition applied to the month/day key. -/
theorem filterAndMapBirthdays_ok (people : List Person)
    (cond : Nat × Nat → Bool) (today : MDDate)
    (hB : ∀ p ∈ people, ValidBday p) :
    filterAndMapBirthdays people cond today =
      Except.ok (selectReports people today (fun d => cond (d.month, d.day))) := by
  induction people with
  | nil => rfl
  | cons p rest ih =>
    have hp : ValidBday p := hB p (List.mem_cons_self p rest)
    have hrest : ∀ q ∈ rest, ValidBday q := fun q hq => hB q (List.mem_cons_of_mem p hq)
    have ih' := ih hrest
    unfold ValidBday at hp
    cases hbd : p.birthday with
    | none =>
      simp only [filterAndMapBirthdays, selectReports, List.filterMap_cons, hbd, ih']
    | some j =>
      cases j with
      | invalid => rw [hbd] at hp; exact absurd hp (by simp)
      | valid d =>
        by_cases hc : cond (d.month, d.day) = true
        · simp [filterAndMapBirthdays, selectReports, List.filterMap_cons, hbd, ih',
            hc]
        · simp [filterAndMapBirthdays, selectReports, List.filterMap_cons, hbd, ih',
            hc]

/-- Membership in a `selectReports` selection. -/
theorem mem_selectReports {people : List Person} {today : MDDate}
    {q : MDDate → Bool} {r : BirthdayReport} :
    r ∈ selectReports people today q ↔
      ∃ p ∈ people, ∃ d, p.birthday = some (JSDate.valid d) ∧ q d = true ∧
        r = mkReport today p := by
  unfold selectReports
  rw [List.mem_filterMap]
  constructor
  · rintro ⟨p, hp, hf⟩
    cases hbd : p.birthday with
    | none => rw [hbd] at hf; simp at hf
    | some j =>
      cases j with
      | invalid => rw [hbd] at hf; simp at hf
      | valid d =>
        rw [hbd] at hf
        by_cases hq : q d = true
        · simp [hq] at hf
          exact ⟨p, hp, d, hbd, hq, hf.symm⟩
        · simp [hq] at hf
  · rintro ⟨p, hp, d, hbd, hq, hr⟩
    exact ⟨p, hp, by rw [hbd]; simp [hq, hr]⟩

/-- Two selections agree when their predicates agree on every parseable
birthday occurring in the collection. -/
theorem selectReports_congr {people : List Person} {today : MDDate}
    {q₁ q₂ : MDDate → Bool}
    (h : ∀ p ∈ people, ∀ d, p.birthday = some (JSDate.valid d) → q₁ d = q₂ d) :
    selectReports people today q₁ = selectReports people today q₂ := by
  unfold selectReports
  induction people with
  | nil => rfl
  | cons p rest ih =>
    have hp := h p (List.mem_cons_self p rest)
    have hrest : ∀ p' ∈ rest, ∀ d, p'.birthday = some (JSDate.valid d) → q₁ d = q₂ d :=
      fun p' hp' => h p' (List.mem_cons_of_mem p hp')
    simp only [List.filterMap_cons]
    rw [ih hrest]
    cases hbd : p.birthday with
    | none => rfl
    | some j =>
      cases j with
      | invalid => rfl
      | valid d => simp only [hp d hbd]

/-- Every report selected carries `yearsInContact =
referenceYear - yearMet` of the person it was built from. -/
theorem mem_selectReports_years {people : List Person} {today : MDDate}
    {q : MDDate → Bool} {r : BirthdayReport}
    (hr : r ∈ selectReports people today q) :
    ∃ p ∈ people, r.yearsInContact = today.year - p.yearMet := by
  obtain ⟨p, hp, d, _, _, hrep⟩ := mem_selectReports.mp hr
  exact ⟨p, hp, by rw [hrep]; rfl⟩

/-- A collection in which no contact has a stored birthday filters to an
empty selection without an error. -/
theorem filterAndMapBirthdays_none (people : List Person)
    (cond : Nat × Nat → Bool) (today : MDDate)
    (hN : ∀ p ∈ people, p.birthday = none) :
    filterAndMapBirthdays people cond today = Except.ok [] := by
  induction people with
  | nil => rfl
  | cons p rest ih =>
    have hp := hN p (List.mem_cons_self p rest)
    have hrest := fun q hq => hN q (List.mem_cons_of_mem p hq)
    simp only [filterAndMapBirthdays, hp]
    exact ih hrest

/-- The minimum-candidate loop is a no-op over a collection with no
stored birthdays. -/
theorem upcomingScan_none (tn : Nat) (people : List Person) (acc : Option Nat)
    (hN : ∀ p ∈ people, p.birthday = none) :
    upcomingScan tn people acc = Except.ok acc := by
  induction people generalizing acc with
  | nil => rfl
  | cons p rest ih =>
    have hp := hN p (List.mem_cons_self p rest)
    have hrest := fun q hq => hN q (List.mem_cons_of_mem p hq)
    simp only [upcomingScan, hp]
    exact ih acc hrest

/-! ## Sample contacts (the fixtures of the service tests) -/

/-- Build a `People` row with default metadata. -/
def mkSamplePerson (name : String) (bday : Option JSDate) (ym : Int)
    (phone : String) : Person :=
  { id := 0, name := name, active := true, birthday := bday, yearMet := ym,
    phoneNumber := phone, email := none, location := none, affiliation := none,
    lastContacted := 0, contactFrequency := 30, chatReminder := 1 }

/-- A contact born November 28, known since 2015. -/
def daenerys : Person :=
  mkSamplePerson "Daenerys Targaryen" (some (JSDate.valid ⟨1995, 11, 28⟩)) 2015
    "123-456-7890"

/-- A contact born November 28, known since 2018. -/
def omar : Person :=
  mkSamplePerson "Omar Little" (some (JSDate.valid ⟨1990, 11, 28⟩)) 2018
    "987-654-3210"

/-- A contact born June 15. -/
def frank : Person :=
  mkSamplePerson "Frank Ocean" (some (JSDate.valid ⟨1985, 6, 15⟩)) 2010
    "555-555-5555"

/-- A leap-day contact, born February 29. -/
def daniel : Person :=
  mkSamplePerson "Daniel Caesar" (some (JSDate.valid ⟨1992, 2, 29⟩)) 2012
    "444-444-4444"

/-- A contact with no stored birthday. -/
def noBdayPerson : Person :=
  mkSamplePerson "No Birthday" none 2020 "000-000-0000"

/-- A contact whose birthday field is present but holds an Invalid Date
(for instance, `new Date(undefined)` stored by the Notion mapper when the
page has no Birthday property). -/
def badBdayPerson : Person :=
  mkSamplePerson "Bad Birthday" (some JSDate.invalid) 2020 "111-111-1111"

/-! ## C9 — empty input and birthday-less input give empty results -/

/-- C9: for every query (todays, thisMonth, upcoming) and the dispatcher,
when the contact collection is empty or no contact in it has a birth
date, the query returns an empty result and does not raise an error. -/
theorem queries_empty_input_ok (people : List Person) (today : MDDate)
    (h : people = [] ∨ ∀ p ∈ people, p.birthday = none) :
    getBirthdayReport people today = Except.ok [] ∧
    getMonthlyBirthdays people today = Except.ok [] ∧
    getUpcomingBirthdays people today = Except.ok [] ∧
    ∀ t, getBirthdayReports t people today = Except.ok [] := by
  have hN : ∀ p ∈ people, p.birthday = none := by
    rcases h with h | h
    · subst h; intro p hp; exact absurd hp (List.not_mem_nil p)
    · exact h
  have h1 : getBirthdayReport people today = Except.ok [] :=
    filterAndMapBirthdays_none _ _ _ hN
  have h2 : getMonthlyBirthdays people today = Except.ok [] := by
    unfold getMonthlyBirthdays
    rw [filterAndMapBirthdays_none _ _ _ hN]
    rfl
  have h3 : getUpcomingBirthdays people today = Except.ok [] := by
    unfold getUpcomingBirthdays
    rw [upcomingScan_none _ _ _ hN]
  refine ⟨h1, h2, h3, fun t => ?_⟩
  unfold getBirthdayReports
  by_cases hE : people.isEmpty
  · simp [hE]
  · cases t <;> simp [hE, h1, h2, h3]

/-- C9 witness: a one-contact collection with no stored birthday. -/
theorem queries_empty_input_ok_witness :
    getBirthdayReport [noBdayPerson] ⟨2024, 11, 28⟩ = Except.ok [] ∧
    getMonthlyBirthdays [noBdayPerson] ⟨2024, 11, 28⟩ = Except.ok [] ∧
    getUpcomingBirthdays [noBdayPerson] ⟨2024, 11, 28⟩ = Except.ok [] ∧
    ∀ t, getBirthdayReports t [noBdayPerson] ⟨2024, 11, 28⟩ = Except.ok [] :=
  queries_empty_input_ok [noBdayPerson] ⟨2024, 11, 28⟩ (Or.inr (by decide))

/-! ## C10 — an absent birthday is skipped; an unparseable one throws -/

/-- C10: a contact with an absent birthday is silently excluded from all
three queries, while a contact whose birthday field is present but holds
an unparseable date makes each of todays, thisMonth and upcoming throw
when the month/day key is extracted. -/
theorem invalid_birthday_throws :
    (getBirthdayReport [noBdayPerson] ⟨2024, 11, 28⟩ = Except.ok [] ∧
     getMonthlyBirthdays [noBdayPerson] ⟨2024, 11, 28⟩ = Except.ok [] ∧
     getUpcomingBirthdays [noBdayPerson] ⟨2024, 11, 28⟩ = Except.ok []) ∧
    (getBirthdayReport [daenerys, badBdayPerson] ⟨2024, 11, 28⟩ = Except.error () ∧
     getMonthlyBirthdays [daenerys, badBdayPerson] ⟨2024, 11, 28⟩ = Except.error () ∧
     getUpcomingBirthdays [daenerys, badBdayPerson] ⟨2024, 11, 28⟩ = Except.error ()) :=
  ⟨⟨rfl, rfl, rfl⟩, rfl, rfl, rfl⟩

/-! ## C2 — leap-day contacts match only a February 29 reference date -/

/-- C2: a contact born February 29 appears in the todays query exactly
when the reference date is itself February 29; in particular it is not
returned on February 28 or March 1. -/
theorem feb29_strict_equality (people : List Person) (today : MDDate)
    (hB : ∀ p ∈ people, ValidBday p) (p : Person) (hp : p ∈ people)
    (d : MDDate) (hbd : p.birthday = some (JSDate.valid d))
    (hm : d.month = 2) (hd : d.day = 29) :
    ∃ rs, getBirthdayReport people today = Except.ok rs ∧
      (mkReport today p ∈ rs ↔ (today.month = 2 ∧ today.day = 29)) := by
  refine ⟨_, filterAndMapBirthdays_ok people _ today hB, ?_⟩
  constructor
  · intro hmem
    obtain ⟨p', hp', d', hbd', hq', hrep⟩ := mem_selectReports.mp hmem
    have hbdeq : p.birthday = p'.birthday := by
      have := congrArg BirthdayReport.birthday hrep
      simpa [mkReport] using this
    rw [hbd] at hbdeq
    rw [hbd'] at hbdeq
    have hdd : d = d' := by
      injection hbdeq with h1
      injection h1
    subst hdd
    have : (d.month, d.day) = (today.month, today.day) := by
      simpa using hq'
    rw [hm, hd] at this
    exact ⟨(Prod.mk.injEq _ _ _ _ ▸ this).1.symm, (Prod.mk.injEq _ _ _ _ ▸ this).2.symm⟩
  · rintro ⟨h2, h29⟩
    refine mem_selectReports.mpr ⟨p, hp, d, hbd, ?_, rfl⟩
    simp [hm, hd, h2, h29]

/-- C2 witness: the leap-day contact is not returned on February 28 of a
non-leap year. -/
theorem feb29_strict_equality_witness :
    ∃ rs, getBirthdayReport [daniel] ⟨2023, 2, 28⟩ = Except.ok rs ∧
      (mkReport ⟨2023, 2, 28⟩ daniel ∈ rs ↔
        ((⟨2023, 2, 28⟩ : MDDate).month = 2 ∧ (⟨2023, 2, 28⟩ : MDDate).day = 29)) :=
  feb29_strict_equality [daniel] ⟨2023, 2, 28⟩ (by decide) daniel
    (by decide) ⟨1992, 2, 29⟩ rfl rfl rfl

/-! ## C3 — the month report is exact, but sorted by the local getDate() day -/

/-- The key the month report is actually sorted by: the local-time
`getDate()` of the stored birthday (`0` when no birthday is attached,
mirroring the comparator's `0` result). -/
def reportDay (r : BirthdayReport) : Nat :=
  match r.birthday with
  | some j => jsDay j
  | none => 0

/-- The day-of-month of the stored birthday as the filter and the
display use it — the claim's "birthday's day-of-month" (`0` when no
parseable birthday is attached). -/
def storedDay (r : BirthdayReport) : Nat :=
  match r.birthday with
  | some (JSDate.valid d) => d.day
  | _ => 0

/-- A contact born November 1 (UTC midnight; `getDate()` is 31 in the
pinned Los Angeles timezone). -/
def abe : Person :=
  mkSamplePerson "Abe" (some (JSDate.valid ⟨1993, 11, 1⟩)) 2015 "201-000-0001"

/-- A contact born November 15 (`getDate()` is 14 in the pinned Los
Angeles timezone). -/
def bea : Person :=
  mkSamplePerson "Bea" (some (JSDate.valid ⟨1994, 11, 15⟩)) 2016 "201-000-0015"

theorem bdLe_total (a b : BirthdayReport) : bdLe a b = true ∨ bdLe b a = true := by
  unfold bdLe
  cases a.birthday with
  | none => cases b.birthday <;> simp
  | some x =>
    cases b.birthday with
    | none => simp
    | some y =>
      rcases Nat.le_total (jsDay x) (jsDay y) with h | h
      · exact Or.inl (by simpa using h)
      · exact Or.inr (by simpa using h)

theorem bdLe_trans {a b c : BirthdayReport} (hb : b.birthday.isSome)
    (h1 : bdLe a b = true) (h2 : bdLe b c = true) : bdLe a c = true := by
  unfold bdLe at h1 h2 ⊢
  cases ha : a.birthday with
  | none => cases c.birthday <;> simp
  | some x =>
    cases hc : c.birthday with
    | none => simp
    | some z =>
      cases hbb : b.birthday with
      | none => rw [hbb] at hb; simp at hb
      | some y =>
        rw [ha, hbb] at h1
        rw [hbb, hc] at h2
        simp only [decide_eq_true_eq] at h1 h2
        show decide (jsDay x ≤ jsDay z) = true
        simp only [decide_eq_true_eq]
        exact Nat.le_trans h1 h2

theorem mem_jsInsert {x y : BirthdayReport} {l : List BirthdayReport} :
    y ∈ jsInsert x l ↔ y = x ∨ y ∈ l := by
  induction l with
  | nil => simp [jsInsert]
  | cons z zs ih =>
    rw [jsInsert]
    by_cases h : bdLe x z = true
    · rw [if_pos h]
      simp [List.mem_cons]
    · rw [if_neg h]
      simp only [List.mem_cons, ih]
      tauto

theorem jsInsert_perm (x : BirthdayReport) (l : List BirthdayReport) :
    (jsInsert x l).Perm (x :: l) := by
  induction l with
  | nil => exact List.Perm.refl _
  | cons y ys ih =>
    rw [jsInsert]
    by_cases h : bdLe x y = true
    · rw [if_pos h]
    · rw [if_neg h]
      exact (ih.cons y).trans (List.Perm.swap x y ys)

theorem jsSortByDay_perm (l : List BirthdayReport) : (jsSortByDay l).Perm l := by
  induction l with
  | nil => exact List.Perm.refl _
  | cons x xs ih =>
    exact (jsInsert_perm x (jsSortByDay xs)).trans (ih.cons x)

theorem jsInsert_sorted {x : BirthdayReport} {l : List BirthdayReport}
    (hall : ∀ r ∈ x :: l, r.birthday.isSome)
    (hs : l.Pairwise (fun a b => bdLe a b = true)) :
    (jsInsert x l).Pairwise (fun a b => bdLe a b = true) := by
  induction l with
  | nil => simp [jsInsert]
  | cons y ys ih =>
    rw [List.pairwise_cons] at hs
    rw [jsInsert]
    by_cases h : bdLe x y = true
    · rw [if_pos h]
      refine List.pairwise_cons.mpr ⟨?_, List.pairwise_cons.mpr hs⟩
      intro z hz
      rcases List.mem_cons.mp hz with hz | hz
      · subst hz; exact h
      · have hy : y.birthday.isSome := hall y (by simp)
        exact bdLe_trans hy h (hs.1 z hz)
    · rw [if_neg h]
      have hyx : bdLe y x = true := by
        rcases bdLe_total x y with h' | h'
        · exact absurd h' h
        · exact h'
      refine List.pairwise_cons.mpr ⟨?_, ?_⟩
      · intro z hz
        rcases mem_jsInsert.mp hz with hz | hz
        · subst hz; exact hyx
        · exact hs.1 z hz
      · refine ih (fun r hr => ?_) hs.2
        rcases List.mem_cons.mp hr with hr | hr
        · subst hr; exact hall r (by simp)
        · exact hall r (by simp [hr])

theorem jsSortByDay_sorted {l : List BirthdayReport}
    (hall : ∀ r ∈ l, r.birthday.isSome) :
    (jsSortByDay l).Pairwise (fun a b => bdLe a b = true) := by
  induction l with
  | nil => simp [jsSortByDay]
  | cons x xs ih =>
    unfold jsSortByDay
    refine jsInsert_sorted (fun r hr => ?_) (ih (fun r hr => hall r (by simp [hr])))
    rcases List.mem_cons.mp hr with hr | hr
    · subst hr; exact hall r (by simp)
    · exact hall r (List.mem_cons_of_mem x ((jsSortByDay_perm xs).mem_iff.mp hr))

/-- Every selected report carries the selected person's stored (valid)
birthday. -/
theorem mem_selectReports_bday {people : List Person} {today : MDDate}
    {q : MDDate → Bool} {r : BirthdayReport}
    (hr : r ∈ selectReports people today q) :
    ∃ d, r.birthday = some (JSDate.valid d) ∧ q d = true := by
  obtain ⟨p, _, d, hbd, hq, hrep⟩ := mem_selectReports.mp hr
  exact ⟨d, by rw [hrep]; simpa [mkReport] using hbd, hq⟩

/-- C3 counterexample: with the November 1 and November 15 contacts, the
month report returns the November 15 contact (stored day 15) before the
November 1 contact (stored day 1) — the comparator sorts by the local
`getDate()` values 14 and 31, so the output is not ascending by the
birthday's day-of-month. -/
theorem getMonthlyBirthdays_not_sorted_counterexample :
    getMonthlyBirthdays [abe, bea] ⟨2024, 11, 20⟩ =
      Except.ok [mkReport ⟨2024, 11, 20⟩ bea, mkReport ⟨2024, 11, 20⟩ abe] ∧
    storedDay (mkReport ⟨2024, 11, 20⟩ bea) = 15 ∧
    storedDay (mkReport ⟨2024, 11, 20⟩ abe) = 1 ∧
    ¬ (storedDay (mkReport ⟨2024, 11, 20⟩ bea) ≤
        storedDay (mkReport ⟨2024, 11, 20⟩ abe)) :=
  ⟨rfl, rfl, rfl, by decide⟩

/-- C3 amended: the month report succeeds and contains exactly the
contacts whose birth month equals the reference month, but it is sorted
ascending by the local-time `getDate()` of the stored birthday — under
the pinned `America/Los_Angeles` timezone, the previous calendar day's
day-of-month — not by the displayed day-of-month. -/
theorem getMonthlyBirthdays_exact_sorted_localDay (people : List Person)
    (today : MDDate) (hB : ∀ p ∈ people, ValidBday p) :
    ∃ rs, getMonthlyBirthdays people today = Except.ok rs ∧
      rs.Perm (selectReports people today (fun d => d.month == today.month)) ∧
      rs.Pairwise (fun a b => reportDay a ≤ reportDay b) := by
  unfold getMonthlyBirthdays
  rw [filterAndMapBirthdays_ok people _ today hB]
  refine ⟨_, rfl, jsSortByDay_perm _, ?_⟩
  have hall : ∀ r ∈ selectReports people today
      (fun d => (d.month, d.day).1 == today.month), r.birthday.isSome := by
    intro r hr
    obtain ⟨d, hd, _⟩ := mem_selectReports_bday hr
    simp [hd]
  have hsorted := jsSortByDay_sorted hall
  refine hsorted.imp_of_mem ?_
  intro a b ha hb hle
  have ha' := hall a ((jsSortByDay_perm _).mem_iff.mp ha)
  have hb' := hall b ((jsSortByDay_perm _).mem_iff.mp hb)
  unfold bdLe at hle
  unfold reportDay
  cases haa : a.birthday with
  | none => rw [haa] at ha'; simp at ha'
  | some x =>
    cases hbb : b.birthday with
    | none => rw [hbb] at hb'; simp at hb'
    | some y =>
      rw [haa, hbb] at hle
      simpa using hle

/-- C3 amended witness: the November report for the fixtures including
the day-1 contact, referenced from November 15, 2024. -/
theorem getMonthlyBirthdays_exact_sorted_localDay_witness :
    ∃ rs, getMonthlyBirthdays [abe, bea, daenerys, frank] ⟨2024, 11, 15⟩ =
        Except.ok rs ∧
      rs.Perm (selectReports [abe, bea, daenerys, frank] ⟨2024, 11, 15⟩
        (fun d => d.month == (⟨2024, 11, 15⟩ : MDDate).month)) ∧
      rs.Pairwise (fun a b => reportDay a ≤ reportDay b) :=
  getMonthlyBirthdays_exact_sorted_localDay [abe, bea, daenerys, frank]
    ⟨2024, 11, 15⟩ (by decide)

/-! ## C1 — the upcoming query returns exactly the global-minimum tie set -/

theorem foldMin_some_spec (l : List Nat) :
    ∀ a : Nat, ∃ m, foldMin (some a) l = some m ∧ m ≤ a ∧
      (∀ x ∈ l, m ≤ x) ∧ (m = a ∨ m ∈ l) := by
  induction l with
  | nil =>
    intro a
    exact ⟨a, rfl, Nat.le_refl a, by simp, Or.inl rfl⟩
  | cons c l ih =>
    intro a
    by_cases h : c < a
    · obtain ⟨m, hm, hmc, hml, hmem⟩ := ih c
      refine ⟨m, ?_, Nat.le_trans hmc (Nat.le_of_lt h), ?_, ?_⟩
      · show List.foldl stepMin (stepMin (some a) c) l = some m
        rw [show stepMin (some a) c = some c from by simp [stepMin, h]]
        exact hm
      · intro x hx
        rcases List.mem_cons.mp hx with hx | hx
        · subst hx; exact hmc
        · exact hml x hx
      · rcases hmem with hmem | hmem
        · exact Or.inr (by simp [hmem])
        · exact Or.inr (List.mem_cons_of_mem c hmem)
    · obtain ⟨m, hm, hma, hml, hmem⟩ := ih a
      refine ⟨m, ?_, hma, ?_, ?_⟩
      · show List.foldl stepMin (stepMin (some a) c) l = some m
        rw [show stepMin (some a) c = some a from by simp [stepMin, h]]
        exact hm
      · intro x hx
        rcases List.mem_cons.mp hx with hx | hx
        · subst hx; exact Nat.le_trans hma (Nat.le_of_not_lt h)
        · exact hml x hx
      · rcases hmem with hmem | hmem
        · exact Or.inl hmem
        · exact Or.inr (List.mem_cons_of_mem c hmem)

/-- The running minimum of the loop is the global minimum: it is one of
the candidate ordinals and bounds all of them from below. -/
theorem foldMin_min (l : List Nat) (mn : Nat) (h : foldMin none l = some mn) :
    mn ∈ l ∧ ∀ x ∈ l, mn ≤ x := by
  cases l with
  | nil => exact absurd h (by simp [foldMin])
  | cons c l =>
    rw [show foldMin none (c :: l) = foldMin (some c) l from rfl] at h
    obtain ⟨m, hm, hmc, hml, hmem⟩ := foldMin_some_spec l c
    rw [hm] at h
    injection h with h
    subst h
    refine ⟨?_, ?_⟩
    · rcases hmem with hmem | hmem
      · simp [hmem]
      · exact List.mem_cons_of_mem c hmem
    · intro x hx
      rcases List.mem_cons.mp hx with hx | hx
      · subst hx; exact hmc
      · exact hml x hx

/-- On a collection whose birthdays all parse, the minimum-candidate loop
succeeds and computes the running minimum of the candidate ordinals. -/
theorem upcomingScan_ok (tn : Nat) (people : List Person) (acc : Option Nat)
    (hB : ∀ p ∈ people, ValidBday p) :
    upcomingScan tn people acc = Except.ok (foldMin acc (ordinalsOf people tn)) := by
  induction people generalizing acc with
  | nil => rfl
  | cons p rest ih =>
    have hp : ValidBday p := hB p (List.mem_cons_self p rest)
    have hrest := fun q hq => hB q (List.mem_cons_of_mem p hq)
    unfold ValidBday at hp
    cases hbd : p.birthday with
    | none =>
      simp only [upcomingScan, ordinalsOf, List.filterMap_cons, hbd]
      exact ih acc hrest
    | some j =>
      cases j with
      | invalid => rw [hbd] at hp; exact absurd hp (by simp)
      | valid d =>
        simp only [upcomingScan, ordinalsOf, List.filterMap_cons, hbd]
        exact ih (stepMin acc (candidate tn d)) hrest

/-- Membership in the candidate-ordinal list. -/
theorem mem_ordinalsOf {people : List Person} {tn x : Nat} :
    x ∈ ordinalsOf people tn ↔
      ∃ p ∈ people, ∃ d, p.birthday = some (JSDate.valid d) ∧
        candidate tn d = x := by
  unfold ordinalsOf
  rw [List.mem_filterMap]
  constructor
  · rintro ⟨p, hp, hf⟩
    cases hbd : p.birthday with
    | none => rw [hbd] at hf; simp at hf
    | some j =>
      cases j with
      | invalid => rw [hbd] at hf; simp at hf
      | valid d =>
        rw [hbd] at hf
        simp only [Option.some.injEq] at hf
        exact ⟨p, hp, d, hbd, hf⟩
  · rintro ⟨p, hp, d, hbd, hc⟩
    exact ⟨p, hp, by rw [hbd]; simp [hc]⟩

/-- The normalisation of the minimum candidate back to an "MM-DD" key
identifies exactly the birthdays whose candidate ordinal is that
minimum. -/
theorem candidate_pair_iff (tn mn : Nat) (d : MDDate) (hd : d.Valid)
    (d0 : MDDate) (hd0 : d0.Valid) (h0 : candidate tn d0 = mn) :
    ((d.month, d.day) =
        ((if 1200 + 100 ≤ mn then mn - 1200 else mn) / 100,
         (if 1200 + 100 ≤ mn then mn - 1200 else mn) % 100)) ↔
      candidate tn d = mn := by
  obtain ⟨hm1, hm2, hdd1, hdd2⟩ := hd
  obtain ⟨hm01, hm02, hd01, hd02⟩ := hd0
  unfold candidate at h0 ⊢
  rw [Prod.mk.injEq]
  split_ifs at h0 ⊢ <;> omega

/-- C1: the upcoming query returns exactly the contacts (with a parseable
birth date) whose candidate ordinal — `month * 100 + day`, plus `1200`
when strictly below today's ordinal — equals the global minimum over all
such contacts; every tied contact is included.  The second conjunct
states that the loop's result is that global minimum. -/
theorem getUpcomingBirthdays_global_min (people : List Person) (today : MDDate)
    (hB : ∀ p ∈ people, ValidBday p) :
    (getUpcomingBirthdays people today =
      Except.ok
        (match foldMin none (ordinalsOf people (todayNum today)) with
         | none => []
         | some mn =>
           selectReports people today
             (fun d => candidate (todayNum today) d == mn))) ∧
    (∀ mn, foldMin none (ordinalsOf people (todayNum today)) = some mn →
      mn ∈ ordinalsOf people (todayNum today) ∧
      ∀ x ∈ ordinalsOf people (todayNum today), mn ≤ x) := by
  refine ⟨?_, fun mn hmn => foldMin_min _ mn hmn⟩
  unfold getUpcomingBirthdays
  rw [upcomingScan_ok (todayNum today) people none hB]
  cases hmin : foldMin none (ordinalsOf people (todayNum today)) with
  | none => rfl
  | some mn =>
    simp only []
    rw [filterAndMapBirthdays_ok people _ today hB]
    congr 1
    apply selectReports_congr
    intro p hp d hbd
    have hmem : mn ∈ ordinalsOf people (todayNum today) := (foldMin_min _ mn hmin).1
    obtain ⟨p0, hp0, d0, hbd0, hcand0⟩ := mem_ordinalsOf.mp hmem
    have hd : d.Valid := by
      have h' := hB p hp; unfold ValidBday at h'; rw [hbd] at h'; exact h'
    have hd0 : d0.Valid := by
      have h' := hB p0 hp0; unfold ValidBday at h'; rw [hbd0] at h'; exact h'
    have hiff := candidate_pair_iff (todayNum today) mn d hd d0 hd0 hcand0
    rw [Bool.eq_iff_iff]
    simp only [beq_iff_eq, decide_eq_true_eq]
    exact hiff

/-- C1 witness: from December 30, 2024, the two November 28 contacts wrap
around and the February 29 contact (candidate `1429`) is the unique
minimum. -/
theorem getUpcomingBirthdays_global_min_witness :
    (getUpcomingBirthdays [daenerys, omar, daniel] ⟨2024, 12, 30⟩ =
      Except.ok
        (match foldMin none (ordinalsOf [daenerys, omar, daniel]
            (todayNum ⟨2024, 12, 30⟩)) with
         | none => []
         | some mn =>
           selectReports [daenerys, omar, daniel] ⟨2024, 12, 30⟩
             (fun d => candidate (todayNum ⟨2024, 12, 30⟩) d == mn))) ∧
    (∀ mn, foldMin none (ordinalsOf [daenerys, omar, daniel]
        (todayNum ⟨2024, 12, 30⟩)) = some mn →
      mn ∈ ordinalsOf [daenerys, omar, daniel] (todayNum ⟨2024, 12, 30⟩) ∧
      ∀ x ∈ ordinalsOf [daenerys, omar, daniel] (todayNum ⟨2024, 12, 30⟩),
        mn ≤ x) :=
  getUpcomingBirthdays_global_min [daenerys, omar, daniel] ⟨2024, 12, 30⟩
    (by decide)

/-! ## C7 — yearsInContact is refYear − yearMet, but can be negative -/

/-- A contact whose `yearMet` lies in the future but inside the model's
validation range `[2002, 3100]`. -/
def futurePerson : Person :=
  mkSamplePerson "Future Friend" (some (JSDate.valid ⟨1990, 6, 15⟩)) 3000
    "999-999-9999"

/-- C7 counterexample: a contact with `yearMet = 3000` passes the
`People.init` validation (`min: 2002, max: 3100`), yet appears in a
query result with a negative `yearsInContact` (`2024 - 3000 = -976`):
the validation does not bound `yearMet` by the current year. -/
theorem yearsInContact_negative_counterexample :
    yearMetValid 3000 ∧
    getBirthdayReport [futurePerson] ⟨2024, 6, 15⟩ =
      Except.ok [{ name := "Future Friend", yearsInContact := -976,
                   birthday := some (JSDate.valid ⟨1990, 6, 15⟩) }] ∧
    ¬ (0 ≤ (-976 : Int)) :=
  ⟨by decide, rfl, by decide⟩

/-- C7 amended: every contact in any query result carries
`yearsInContact = referenceYear - yearMet`; the value is nonnegative when
`yearMet ≤ referenceYear`, but the model validation (`2002 ≤ yearMet ≤
3100`) does not itself guarantee that bound. -/
theorem yearsInContact_formula (people : List Person) (today : MDDate)
    (hB : ∀ p ∈ people, ValidBday p) :
    ∀ rs, (getBirthdayReport people today = Except.ok rs ∨
           getMonthlyBirthdays people today = Except.ok rs ∨
           getUpcomingBirthdays people today = Except.ok rs) →
      ∀ r ∈ rs, ∃ p ∈ people, r.yearsInContact = today.year - p.yearMet ∧
        (p.yearMet ≤ today.year → 0 ≤ r.yearsInContact) := by
  have key : ∀ (q : MDDate → Bool) (r : BirthdayReport),
      r ∈ selectReports people today q →
      ∃ p ∈ people, r.yearsInContact = today.year - p.yearMet ∧
        (p.yearMet ≤ today.year → 0 ≤ r.yearsInContact) := by
    intro q r hr
    obtain ⟨p, hp, heq⟩ := mem_selectReports_years hr
    exact ⟨p, hp, heq, fun hle => by omega⟩
  intro rs h r hr
  rcases h with h | h | h
  · unfold getBirthdayReport at h
    rw [filterAndMapBirthdays_ok people _ today hB] at h
    injection h with h
    subst h
    exact key _ r hr
  · unfold getMonthlyBirthdays at h
    rw [filterAndMapBirthdays_ok people _ today hB] at h
    injection h with h
    subst h
    exact key _ r ((jsSortByDay_perm _).mem_iff.mp hr)
  · unfold getUpcomingBirthdays at h
    rw [upcomingScan_ok (todayNum today) people none hB] at h
    cases hmin : foldMin none (ordinalsOf people (todayNum today)) with
    | none =>
      rw [hmin] at h
      injection h with h
      subst h
      exact absurd hr (List.not_mem_nil r)
    | some mn =>
      rw [hmin] at h
      simp only [] at h
      rw [filterAndMapBirthdays_ok people _ today hB] at h
      injection h with h
      subst h
      exact key _ r hr

/-- C7 amended witness: the daily report for the leap-day fixture on
February 29, 2024. -/
theorem yearsInContact_formula_witness :
    ∃ p ∈ [daniel],
      (mkReport ⟨2024, 2, 29⟩ daniel).yearsInContact =
        (⟨2024, 2, 29⟩ : MDDate).year - p.yearMet ∧
      (p.yearMet ≤ (⟨2024, 2, 29⟩ : MDDate).year →
        0 ≤ (mkReport ⟨2024, 2, 29⟩ daniel).yearsInContact) :=
  yearsInContact_formula [daniel] ⟨2024, 2, 29⟩ (by decide)
    [mkReport ⟨2024, 2, 29⟩ daniel] (Or.inl rfl)
    (mkReport ⟨2024, 2, 29⟩ daniel) (by decide)

/-! ## C8 — the formatter samples its timestamp internally -/

/-- C8 counterexample: two calls with the same classification and the
same kind, but different internally sampled clock readings, produce
different output strings — the timestamp is not a caller-supplied input
of the TypeScript function, it is computed inside from `new Date()`. -/
theorem formatter_internal_clock_counterexample :
    formatBirthdayMessageForSlack [] ReportType.daily "Feb 25, 2025, 9:00:00 AM" ≠
      formatBirthdayMessageForSlack [] ReportType.daily "Feb 26, 2025, 9:00:00 AM" := by
  decide

/-- C8 amended: the formatter performs no I/O besides sampling the clock
for its timestamp; its output is a deterministic function of the
classification, the kind and that internally sampled timestamp — it
agrees on two calls exactly when the sampled timestamps agree. -/
theorem formatter_deterministic_given_timestamp (reports : List BirthdayReport)
    (t : ReportType) (ts₁ ts₂ : String) :
    formatBirthdayMessageForSlack reports t ts₁ =
        formatBirthdayMessageForSlack reports t ts₂ ↔ ts₁ = ts₂ := by
  constructor
  · intro h
    have hd := congrArg String.data h
    simp only [formatBirthdayMessageForSlack, String.data_append,
      List.append_assoc] at hd
    have hlen := congrArg List.length hd
    simp only [List.length_append] at hlen
    have hlen' : ts₁.data.length = ts₂.data.length := by omega
    have h1 := List.append_cancel_left hd
    have h2 := List.append_cancel_left h1
    have h3 := List.append_cancel_left h2
    exact String.ext (List.append_inj h3 hlen').1
  · intro h
    rw [h]

/-! ## Reconciliation lemmas -/

/-- A JSON profile fixture. -/
def adaProfile : Profile :=
  { firstName := "Ada", lastName := "Lovelace",
    birthday := some (JSDate.valid ⟨1995, 11, 28⟩), yearMet := 2015,
    phoneNumber := "123-456-7890", email := none, location := none }

/-- A second JSON profile fixture with a distinct phone number. -/
def linProfile : Profile :=
  { firstName := "Lin", lastName := "Manuel",
    birthday := some (JSDate.valid ⟨1990, 11, 28⟩), yearMet := 2018,
    phoneNumber := "987-654-3210", email := none, location := none }

/-- A profile sharing Ada's phone number with different fields. -/
def adaDupProfile : Profile :=
  { firstName := "Ada2", lastName := "Duplicate",
    birthday := some (JSDate.valid ⟨1996, 1, 2⟩), yearMet := 2016,
    phoneNumber := "123-456-7890", email := none, location := none }

theorem applyUpdate_eq_of_phone {p q : Profile}
    (h : p.phoneNumber = q.phoneNumber) : applyUpdate p q = q := by
  unfold applyUpdate
  rw [h]

theorem findByPhone_isSome {A : List Profile} {p : Profile} (hp : p ∈ A) :
    ∃ q, findByPhone A p.phoneNumber = some q := by
  induction A with
  | nil => exact absurd hp (List.not_mem_nil p)
  | cons r rest ih =>
    by_cases h : (r.phoneNumber == p.phoneNumber) = true
    · exact ⟨r, by simp [findByPhone, List.find?, h]⟩
    · rcases List.mem_cons.mp hp with hp | hp
      · subst hp; exact absurd (by simp) h
      · obtain ⟨q, hq⟩ := ih hp
        refine ⟨q, ?_⟩
        rw [Bool.not_eq_true] at h
        unfold findByPhone at hq ⊢
        rw [List.find?, h]
        exact hq

theorem updateFirst_self {A : List Profile}
    (hnd : (A.map Profile.phoneNumber).Nodup) {p : Profile} (hp : p ∈ A) :
    updateFirst A p.phoneNumber p = A := by
  induction A with
  | nil => rfl
  | cons r rest ih =>
    rw [List.map_cons, List.nodup_cons] at hnd
    rw [updateFirst]
    by_cases h : (r.phoneNumber == p.phoneNumber) = true
    · rw [if_pos h]
      rcases List.mem_cons.mp hp with hp | hp
      · subst hp
        rw [applyUpdate_eq_of_phone rfl]
      · have : r.phoneNumber = p.phoneNumber := by simpa using h
        have : r.phoneNumber ∈ rest.map Profile.phoneNumber := by
          rw [this]; exact List.mem_map_of_mem Profile.phoneNumber hp
        exact absurd this hnd.1
    · rw [if_neg h]
      rcases List.mem_cons.mp hp with hp | hp
      · subst hp; exact absurd (by simp) h
      · rw [ih hnd.2 hp]

theorem syncLoop_self {A : List Profile}
    (hnd : (A.map Profile.phoneNumber).Nodup) :
    ∀ ps : List Profile, (∀ p ∈ ps, p ∈ A) →
      syncLoop A ps = (A, [], ps.map Profile.phoneNumber) := by
  intro ps
  induction ps with
  | nil => intro _; rfl
  | cons p rest ih =>
    intro hps
    have hp : p ∈ A := hps p (List.mem_cons_self p rest)
    obtain ⟨q, hq⟩ := findByPhone_isSome hp
    rw [syncLoop, hq]
    rw [updateFirst_self hnd hp]
    rw [ih (fun x hx => hps x (List.mem_cons_of_mem p hx))]
    rfl

theorem hasPhone_of_mem {phones : List String} {x : String} (hx : x ∈ phones) :
    hasPhone phones x = true := by
  unfold hasPhone
  rw [List.any_eq_true]
  exact ⟨x, hx, by simp⟩

theorem deleteLoop_noop (snapshot : List Profile) (phones : List String)
    (h : ∀ r ∈ snapshot, hasPhone phones r.phoneNumber = true) :
    ∀ db, deleteLoop snapshot phones db = (db, []) := by
  induction snapshot with
  | nil => intro db; rfl
  | cons r rest ih =>
    intro db
    rw [deleteLoop, if_pos (h r (List.mem_cons_self r rest))]
    exact ih (fun x hx => h x (List.mem_cons_of_mem r hx)) db

/-! ## C4 — reconciling identical collections is not an empty plan -/

/-- C4 counterexample: reconciling a collection with itself updates every
matched record — the update set is the whole key set, not empty (the sync
code never compares fields before updating). -/
theorem reconcile_self_counterexample :
    (syncPeopleFromJson [adaProfile] [adaProfile]).2 =
      { inserted := [], updated := ["123-456-7890"], deleted := [] } ∧
    (syncPeopleFromJson [adaProfile] [adaProfile]).2.updated ≠ [] := by
  decide

/-- C4 amended: reconciling a duplicate-free collection with itself
performs no inserts and no deletes and leaves the table unchanged, but it
unconditionally re-updates every record (the operation is a no-op on the
state, while the update set is the full key set rather than empty). -/
theorem syncPeopleFromJson_self (A : List Profile)
    (hnd : (A.map Profile.phoneNumber).Nodup) :
    syncPeopleFromJson A A =
      (A, { inserted := [], updated := A.map Profile.phoneNumber,
            deleted := [] }) := by
  have hd := deleteLoop_noop A (A.map Profile.phoneNumber)
    (fun r hr => hasPhone_of_mem (List.mem_map_of_mem Profile.phoneNumber hr)) A
  unfold syncPeopleFromJson
  rw [syncLoop_self hnd A (fun p hp => hp)]
  show ((deleteLoop A (A.map Profile.phoneNumber) A).1,
        ({ inserted := [], updated := A.map Profile.phoneNumber,
           deleted := (deleteLoop A (A.map Profile.phoneNumber) A).2 } : SyncLog)) = _
  rw [hd]

/-- C4 amended witness: the two-profile fixture collection. -/
theorem syncPeopleFromJson_self_witness :
    syncPeopleFromJson [adaProfile, linProfile] [adaProfile, linProfile] =
      ([adaProfile, linProfile],
       { inserted := [],
         updated := [adaProfile, linProfile].map Profile.phoneNumber,
         deleted := [] }) :=
  syncPeopleFromJson_self [adaProfile, linProfile] (by decide)

/-! ## C5 — duplicate natural keys raise no error and are applied -/

/-- C5 counterexample: an external batch containing two records with the
same phone number is applied in full — the run completes with an insert
and an update of that key and no error is raised; no `DuplicateKeyError`
exists in the code. -/
theorem duplicate_key_no_error_counterexample :
    syncPeopleFromJson [] [adaProfile, adaDupProfile] =
      ([adaDupProfile],
       { inserted := ["123-456-7890"], updated := ["123-456-7890"],
         deleted := [] }) ∧
    (syncPeopleFromJson [] [adaProfile, adaDupProfile]).2.inserted ≠ [] := by
  decide

/-- C5 amended: a duplicated phone number in the external batch aborts
nothing: the first occurrence is inserted, the second occurrence then
updates the same row, and the run completes with the last occurrence's
fields in the table (last-write-wins), with no error raised. -/
theorem syncPeopleFromJson_duplicate_lastWins (p q : Profile)
    (h : p.phoneNumber = q.phoneNumber) :
    syncPeopleFromJson [] [p, q] =
      ([q], { inserted := [p.phoneNumber], updated := [q.phoneNumber],
              deleted := [] }) := by
  have hb : (p.phoneNumber == q.phoneNumber) = true := by simp [h]
  have h1 : findByPhone [p] q.phoneNumber = some p := by
    simp [findByPhone, List.find?, hb]
  have h2 : updateFirst [p] q.phoneNumber q = [q] := by
    rw [updateFirst, if_pos hb, applyUpdate_eq_of_phone h]
  have h3 : syncLoop [] [p, q] = ([q], [p.phoneNumber], [q.phoneNumber]) := by
    rw [syncLoop, show findByPhone [] p.phoneNumber = none from rfl]
    simp only [List.nil_append]
    rw [syncLoop, h1, h2]
    rfl
  have h4 : hasPhone ([p, q].map Profile.phoneNumber) q.phoneNumber = true :=
    hasPhone_of_mem (by simp)
  have h5 : deleteLoop [q] ([p, q].map Profile.phoneNumber) [q] = ([q], []) := by
    rw [deleteLoop, if_pos h4]
    rfl
  unfold syncPeopleFromJson
  rw [h3]
  show ((deleteLoop [q] ([p, q].map Profile.phoneNumber) [q]).1,
        ({ inserted := [p.phoneNumber], updated := [q.phoneNumber],
           deleted := (deleteLoop [q] ([p, q].map Profile.phoneNumber) [q]).2 } : SyncLog)) = _
  rw [h5]

/-- C5 amended witness: the concrete duplicated batch. -/
theorem syncPeopleFromJson_duplicate_lastWins_witness :
    syncPeopleFromJson [] [adaProfile, adaDupProfile] =
      ([adaDupProfile],
       { inserted := [adaProfile.phoneNumber],
         updated := [adaDupProfile.phoneNumber], deleted := [] }) :=
  syncPeopleFromJson_duplicate_lastWins adaProfile adaDupProfile rfl

/-! ## C6 — a single storage failure aborts the rest of the batch -/

/-- C6 counterexample: with a storage collaborator that fails only on the
key "123-456-7890", a batch holding that record first and a healthy
record second ends with an error and no key applied — the healthy second
record (whose own upsert would succeed) is never processed. -/
theorem upsert_failure_aborts_counterexample :
    notionSyncLoop (fun s => s == "123-456-7890") [adaProfile, linProfile] =
      ([], Except.error ()) ∧
    (fun s => s == "123-456-7890") linProfile.phoneNumber = false :=
  ⟨rfl, by decide⟩

/-- C6 amended: when the storage collaborator fails on a record, the keys
before it have been upserted, the failure is rethrown by `upsertPerson`
and propagated by `syncProfilesFromNotion`, and no record after the
failing one is processed — the run aborts instead of continuing. -/
theorem notionSync_aborts_at_first_failure (failing : String → Bool)
    (pre : List Profile) (a : Profile) (rest : List Profile)
    (hpre : ∀ x ∈ pre, failing x.phoneNumber = false)
    (ha : failing a.phoneNumber = true) :
    notionSyncLoop failing (pre ++ a :: rest) =
      (pre.map Profile.phoneNumber, Except.error ()) := by
  induction pre with
  | nil => simp [notionSyncLoop, ha]
  | cons x xs ih =>
    have hx : failing x.phoneNumber = false := hpre x (List.mem_cons_self x xs)
    have hxs := fun y hy => hpre y (List.mem_cons_of_mem x hy)
    simp [notionSyncLoop, hx, ih hxs]

/-- C6 amended witness: the healthy record is processed, then the failing
record aborts the run. -/
theorem notionSync_aborts_at_first_failure_witness :
    notionSyncLoop (fun s => s == "123-456-7890")
        ([linProfile] ++ adaProfile :: []) =
      ([linProfile].map Profile.phoneNumber, Except.error ()) :=
  notionSync_aborts_at_first_failure (fun s => s == "123-456-7890")
    [linProfile] adaProfile [] (by decide) (by decide)

end Atlas
